import Mathlib

/-!
Verification development for the cptac pancan join-and-classify engine
(`cptac/pancan/pancandataset.py`).  The Python functions are embedded as
executable Lean definitions: per-sample candidate lists become `List String`
pairs (mutations, locations), copy-number values become rationals, dataframe
failures (Python exceptions) become `Option`/`Except` results, and the
dataframe pipeline of `get_genotype_all_vars` becomes explicit list
processing over per-sample rows.
-/

namespace Cptac

/-- Default value used for out-of-range list reads; the Python code only ever
indexes in range, and length side conditions in the theorems keep reads in
range. -/
def emptyS : String := ""

/-- Read position `i` of a list of strings, `emptyS` when out of range. -/
def getS (l : List String) (i : Nat) : String := List.getD l i emptyS

/-- The hardcoded priority list assigned to `mutations_filter` in
`get_genotype_all_vars` (pancandataset.py lines 240-249).  The assignment in
the source is unconditional: it happens whether or not the caller supplied a
`mutations_filter` argument. -/
def default_mutations_filter : List String :=
  ["Deletion",
   "Frame_Shift_Del", "Frame_Shift_Ins", "Nonsense_Mutation", "Nonstop_Mutation",
   "Missense_Mutation_hotspot",
   "Missense_Mutation",
   "Amplification",
   "In_Frame_Del", "In_Frame_Ins", "Splice_Site",
   "De_Novo_Start_Out_Frame", "De_Novo_Start_In_Frame",
   "Start_Codon_Ins", "Start_Codon_SNP",
   "Silent",
   "Wildtype"]

/-- Truncating mutation types (pancandataset.py line 251). -/
def truncations : List String :=
  ["Frame_Shift_Del", "Frame_Shift_Ins", "Nonsense_Mutation", "Nonstop_Mutation",
   "Splice_Site"]

/-- Missense-class mutation types (pancandataset.py line 252). -/
def missenses : List String := ["In_Frame_Del", "In_Frame_Ins", "Missense_Mutation"]

/-- Noncoding mutation types (pancandataset.py line 253).  The apostrophes in
the flank and UTR labels are written with their escape code. -/
def noncodings : List String :=
  ["Intron", "RNA", "3\x27Flank", "Splice_Region", "5\x27UTR", "5\x27Flank",
   "3\x27UTR"]

/-- Embedding of the Python list comprehension
`[index for index, value in enumerate(sample_mutations_list) if value == filter_val]`
used inside `sort` (lines 345, 352, 357, 362). -/
def indicesOf (v : String) (l : List String) : List Nat :=
  (List.range l.length).filter (fun i => getS l i == v)

/-- Embedding of the first loop of `sort` (lines 343-347): walk the priority
list in order; on the first label present in the sample list, take the indices
of all its occurrences and stop. -/
def filterChoice (fs sample : List String) : List Nat :=
  match fs with
  | [] => []
  | f :: rest =>
    if sample.contains f then indicesOf f sample else filterChoice rest sample

/-- Embedding of one fallback-bucket loop of `sort` (lines 350-352, 355-357,
360-362): walk `suffix` (initially the whole sample list); for every scanned
mutation belonging to `bucket`, append the indices of all occurrences of that
mutation in the full sample list. -/
def bucketScan (bucket sample suffix : List String) : List Nat :=
  match suffix with
  | [] => []
  | m :: rest =>
    (if bucket.contains m then indicesOf m sample else []) ++ bucketScan bucket sample rest

/-- The accumulated `chosen_indices` produced by one fallback-bucket loop of
`sort`, scanning the whole sample list. -/
def bucketChoice (bucket sample : List String) : List Nat := bucketScan bucket sample sample

/-- The final value of `chosen_indices` in the multi-candidate branch of
`sort` (lines 343-362): the priority-list scan, then, while still empty, the
truncation, missense and noncoding buckets in that order. -/
def chosenIndices (fs sample : List String) : List Nat :=
  let c1 := filterChoice fs sample
  let c2 := if c1.isEmpty then bucketChoice truncations sample else c1
  let c3 := if c2.isEmpty then bucketChoice missenses sample else c2
  if c3.isEmpty then bucketChoice noncodings sample else c3

/-- Embedding of the per-row `sort` function (lines 332-370).  A row carries
the parallel candidate lists `ms` (mutations) and `ls` (locations).  With a
single candidate it wins outright; otherwise the first chosen index selects
the winner.  `sample_mutations_list[chosen_indices[0]]` raises an IndexError
in Python when `chosen_indices` is empty; that failure is modelled as
`none`. -/
def sortRow (fs ms ls : List String) : Option (List String × List String) :=
  if ms.length == 1 then some ([getS ms 0], [getS ls 0])
  else
    match chosenIndices fs ms with
    | [] => none
    | i :: _ => some ([getS ms i], [getS ls i])

/-- Embedding of `mark_hotspot_locations` (lines 292-305).  For each location
of the row, Python recomputes `position = row[...].index(location)` — the
index of the FIRST occurrence of that location value — and emits the mutation
at that position, suffixed when the location is in the hotspot list. -/
def mark_hotspot_locations (hotspot ms ls : List String) : List String :=
  ls.map (fun location =>
    if hotspot.contains location then
      getS ms (List.indexOf location ls) ++ "_hotspot"
    else
      getS ms (List.indexOf location ls))

/-- Embedding of `add_del_and_amp` (lines 314-326): inject a Deletion or
Amplification pseudo-call into both parallel lists according to the
copy-number value, with inclusive thresholds. -/
def add_del_and_amp (cnv : ℚ) (ms ls : List String) : List String × List String :=
  if cnv ≤ -0.2 then (ms ++ ["Deletion"], ls ++ ["Deletion"])
  else if cnv ≥ 0.2 then (ms ++ ["Amplification"], ls ++ ["Amplification"])
  else (ms, ls)

/-- Embedding of `add_del_and_amp_no_somatic` (lines 260-269): classify a
copy-number value when the gene has no somatic-mutation coverage. -/
def add_del_and_amp_no_somatic (cnv : ℚ) : String :=
  if cnv ≤ -0.2 then "Deletion"
  else if cnv ≥ 0.2 then "Amplification"
  else "No_Mutation"

/-- Embedding of `sample_status` (lines 377-395), computing `Mutation_Status`
from the post-injection candidate list. -/
def sample_status (ms : List String) : String :=
  if ms.length > 1 then
    if ms.length == 2 && ms.contains ("Wildtype_Tumor") then "Single_mutation"
    else if ms.length == 2 && ms.contains ("Wildtype_Normal") then "Single_mutation"
    else "Multiple_mutation"
  else
    if ms = ["Wildtype_Normal"] then "Wildtype_Normal"
    else if ms = ["Wildtype_Tumor"] then "Wildtype_Tumor"
    else "Single_mutation"

/-- A Wildtype sentinel label. -/
def isSentinel (m : String) : Bool :=
  m == "Wildtype_Tumor" || m == "Wildtype_Normal"

/-- Modelled from the spec: the status-derivation rule of spec step 6
(Wildtype_Normal exactly on [Wildtype_Normal], Wildtype_Tumor exactly on
[Wildtype_Tumor], Single_mutation on exactly one non-sentinel entry or on
exactly two entries one of which is a Wildtype sentinel, Multiple_mutation
otherwise), stated as a reference function to compare with the code's
`sample_status`. -/
def spec_mutation_status (ms : List String) : String :=
  if ms = ["Wildtype_Normal"] then "Wildtype_Normal"
  else if ms = ["Wildtype_Tumor"] then "Wildtype_Tumor"
  else if (ms.filter (fun m => !isSentinel m)).length = 1
          ∨ (ms.length = 2 ∧ ms.any isSentinel) then "Single_mutation"
  else "Multiple_mutation"

/-- A dataframe cell of the genotype table: either a copy-number value or a
string label. -/
inductive Cell where
  | num : ℚ → Cell
  | str : String → Cell
deriving DecidableEq

/-- One sample row of the joined CNV+mutation view consumed by
`get_genotype_all_vars` after the join and index reduction (lines 283-288):
sample identifier, the gene's copy-number value, and the parallel
mutation/location lists. -/
structure JoinedRow where
  sample : String
  cnv : ℚ
  mutations : List String
  locations : List String
deriving DecidableEq

/-- Row-by-row application of `sort` across the table
(`combined.apply(sort, axis=1)`, line 372).  Any row failure (the IndexError
modelled by `sortRow` returning `none`) aborts the whole call, as the Python
exception would. -/
def applySort (fs : List String) (rows : List JoinedRow) :
    Option (List (JoinedRow × List String × List String)) :=
  match rows with
  | [] => some []
  | r :: rest =>
    match sortRow fs r.mutations r.locations with
    | none => none
    | some w =>
      match applySort fs rest with
      | none => none
      | some ws => some ((r, w) :: ws)

/-- The hotspot pass (lines 307-310): when a hotspot list is supplied, replace
each row's mutation list by `mark_hotspot_locations`. -/
def hotspotPass (mutation_hotspot : Option (List String)) (r : JoinedRow) : JoinedRow :=
  match mutation_hotspot with
  | some hs => JoinedRow.mk r.sample r.cnv (mark_hotspot_locations hs r.mutations r.locations) r.locations
  | none => r

/-- The copy-number injection pass (line 329): replace each row's parallel
lists by the output of `add_del_and_amp`. -/
def injectPass (r : JoinedRow) : JoinedRow :=
  JoinedRow.mk r.sample r.cnv (add_del_and_amp r.cnv r.mutations r.locations).1
    (add_del_and_amp r.cnv r.mutations r.locations).2

/-- Embedding of `get_genotype_all_vars` (lines 228-404) as a function from
the relevant inputs to the returned table, given as the list of column names
plus one `(sample, cells)` row per sample.  `somatic_genes` stands for
`somatic_mutation["Gene"].unique()`; `cnv` stands for the requested gene's
CNV column; `joined` stands for the joined CNV+mutation view of the gene.
The `mutations_filter` parameter is immediately shadowed by the unconditional
assignment of the default priority list, exactly as in the source
(lines 240-249). -/
def get_genotype_all_vars (mutations_genes : String) (somatic_genes : List String)
    (mutations_filter : Option (List String)) (show_location : Bool)
    (mutation_hotspot : Option (List String))
    (cnv : List (String × ℚ)) (joined : List JoinedRow) :
    Option (List String × List (String × List Cell)) :=
  let mutations_filter := default_mutations_filter
  if somatic_genes.contains mutations_genes = false then
    some ([mutations_genes, "Mutation"],
      cnv.map (fun p => (p.1, [Cell.num p.2, Cell.str (add_del_and_amp_no_somatic p.2)])))
  else
    let injected := (joined.map (hotspotPass mutation_hotspot)).map injectPass
    match applySort mutations_filter injected with
    | none => none
    | some rows =>
      some
        ((if show_location then ["Mutation", "Location", "Mutation_Status"]
          else ["Mutation", "Mutation_Status"]),
         rows.map (fun rw =>
           (rw.1.sample,
            if show_location then
              [Cell.str (String.intercalate "," rw.2.1),
               Cell.str (String.intercalate "," rw.2.2),
               Cell.str (sample_status rw.1.mutations)]
            else
              [Cell.str (String.intercalate "," rw.2.1),
               Cell.str (sample_status rw.1.mutations)])))

/-- Errors raised by the accessor layer (`cptac.exceptions`). -/
inductive CptacError where
  | DataSourceNotFoundError : String → CptacError
  | InvalidParameterError : String → CptacError
deriving DecidableEq

/-- Embedding of `PancanDataset._get_dataframe` (lines 209-218).  The source
registry `self._datasets` is an association list from source names to child
datasets; a child dataset is abstracted as a function from a dataframe name
and tissue type to a table of type `α` (the child classes are outside the
join-and-classify core). -/
def pancan_get_dataframe (α : Type) (datasets : List (String × (String → String → α)))
    (cancer_type name source tissue_type : String) (imputed : Bool) :
    Except CptacError α :=
  let name := if imputed then name ++ "_imputed" else name
  match datasets.lookup source with
  | some child => Except.ok (child name tissue_type)
  | none =>
    Except.error (CptacError.DataSourceNotFoundError
      ("Data source " ++ source ++ " not found for the " ++ cancer_type ++ " dataset."))

/-- Embedding of the `get_CNV` data-type getter (lines 67-69): it forwards to
`_get_dataframe` with the fixed dataframe name. -/
def get_CNV (α : Type) (datasets : List (String × (String → String → α)))
    (cancer_type source tissue_type : String) (imputed : Bool) : Except CptacError α :=
  pancan_get_dataframe α datasets cancer_type "CNV" source tissue_type imputed

/-! ### Helper lemmas about the index machinery of `sort` -/

theorem getS_eq_getElem (l : List String) (i : Nat) (h : i < l.length) :
    getS l i = l[i] :=
  List.getD_eq_getElem l emptyS h

theorem getS_map (f : String → String) (l : List String) (i : Nat)
    (h : i < l.length) : getS (l.map f) i = f (getS l i) := by
  induction l generalizing i with
  | nil => simp at h
  | cons a t ih =>
    cases i with
    | zero => rfl
    | succ n =>
      simp only [List.map_cons, getS, List.getD_cons_succ]
      exact ih n (by simpa using h)

theorem mem_iff_getS (a : String) (l : List String) :
    a ∈ l ↔ ∃ j, j < l.length ∧ getS l j = a := by
  constructor
  · intro h
    obtain ⟨j, hj, rfl⟩ := List.mem_iff_getElem.mp h
    exact ⟨j, hj, getS_eq_getElem l j hj⟩
  · rintro ⟨j, hj, rfl⟩
    rw [getS_eq_getElem l j hj]
    exact List.getElem_mem hj

theorem mem_indicesOf (i : Nat) (v : String) (l : List String) :
    i ∈ indicesOf v l ↔ i < l.length ∧ getS l i = v := by
  simp [indicesOf, List.mem_filter, List.mem_range]

theorem filter_range_first (p : Nat → Bool) (n : Nat)
    (h : ∃ j, j < n ∧ p j) :
    ∃ i t, (List.range n).filter p = i :: t ∧ i < n ∧ p i ∧ ∀ j < i, ¬ p j := by
  induction n with
  | zero => obtain ⟨j, hj, _⟩ := h; omega
  | succ n ih =>
    by_cases hn : ∃ j, j < n ∧ p j
    · obtain ⟨i, t, heq, hi, hpi, hfirst⟩ := ih hn
      refine ⟨i, t ++ [n].filter p, ?_, by omega, hpi, hfirst⟩
      rw [List.range_succ n, List.filter_append, heq]
      simp
    · push_neg at hn
      obtain ⟨j, hj, hpj⟩ := h
      have hjn : j = n := by
        by_contra hne
        exact (by simpa [hpj] using hn j (by omega))
      subst hjn
      have hempty : (List.range j).filter p = [] := by
        rw [List.filter_eq_nil_iff]
        intro a ha
        exact by simpa using hn a (by simpa [List.mem_range] using ha)
      refine ⟨j, [], ?_, by omega, hpj, ?_⟩
      · rw [List.range_succ j, List.filter_append, hempty]
        simp [hpj]
      · intro k hk
        exact by simpa using hn k hk

theorem indicesOf_first (f : String) (l : List String)
    (h : ∃ j, j < l.length ∧ getS l j = f) :
    ∃ i t, indicesOf f l = i :: t ∧ i < l.length ∧ getS l i = f ∧
      ∀ j < i, getS l j ≠ f := by
  obtain ⟨i, t, heq, hi, hpi, hfirst⟩ :=
    filter_range_first (fun i => getS l i == f) l.length
      (by obtain ⟨j, hj, hv⟩ := h; exact ⟨j, hj, by simp [hv]⟩)
  refine ⟨i, t, heq, hi, by simpa using hpi, fun j hj => by simpa using hfirst j hj⟩

theorem filterChoice_eq_nil (fs sample : List String)
    (h : ∀ f ∈ fs, f ∉ sample) : filterChoice fs sample = [] := by
  induction fs with
  | nil => rfl
  | cons f rest ih =>
    have hf : sample.contains f = false := by
      simpa using h f (by simp)
    simp only [filterChoice, hf]
    exact ih (fun g hg => h g (by simp [hg]))

theorem filterChoice_first (pre : List String) (f : String) (post sample : List String)
    (hpre : ∀ g ∈ pre, g ∉ sample) (hf : f ∈ sample) :
    filterChoice (pre ++ f :: post) sample = indicesOf f sample := by
  induction pre with
  | nil => simp [filterChoice, List.contains_iff_exists_mem_beq, hf]
  | cons g rest ih =>
    have hg : sample.contains g = false := by
      simpa using hpre g (by simp)
    simp only [List.cons_append, filterChoice, hg]
    exact ih (fun g' hg' => hpre g' (by simp [hg']))

theorem mem_filterChoice (fs sample : List String) (i : Nat)
    (h : i ∈ filterChoice fs sample) :
    i < sample.length ∧ getS sample i ∈ fs := by
  induction fs with
  | nil => simp [filterChoice] at h
  | cons f rest ih =>
    simp only [filterChoice] at h
    by_cases hc : sample.contains f
    · rw [if_pos hc] at h
      obtain ⟨hi, hv⟩ := (mem_indicesOf i f sample).mp h
      exact ⟨hi, by simp [hv]⟩
    · rw [if_neg hc] at h
      obtain ⟨hi, hv⟩ := ih h
      exact ⟨hi, by simp [hv]⟩

theorem bucketScan_eq_nil (bucket sample suffix : List String)
    (h : ∀ m ∈ suffix, m ∉ bucket) : bucketScan bucket sample suffix = [] := by
  induction suffix with
  | nil => rfl
  | cons m rest ih =>
    have hm : bucket.contains m = false := by
      simpa using h m (by simp)
    simp only [bucketScan, hm]
    simpa using ih (fun g hg => h g (by simp [hg]))

theorem bucketChoice_eq_nil (bucket sample : List String)
    (h : ∀ m ∈ sample, m ∉ bucket) : bucketChoice bucket sample = [] :=
  bucketScan_eq_nil bucket sample sample h

theorem mem_bucketScan (bucket sample suffix : List String) (i : Nat)
    (h : i ∈ bucketScan bucket sample suffix) :
    i < sample.length ∧ getS sample i ∈ bucket := by
  induction suffix with
  | nil => simp [bucketScan] at h
  | cons m rest ih =>
    simp only [bucketScan, List.mem_append] at h
    rcases h with h | h
    · by_cases hc : bucket.contains m
      · rw [if_pos hc] at h
        obtain ⟨hi, hv⟩ := (mem_indicesOf i m sample).mp h
        exact ⟨hi, by rw [hv]; simpa using hc⟩
      · rw [if_neg hc] at h
        exact absurd h (by simp)
    · exact ih h

theorem bucketScan_append (bucket sample xs ys : List String) :
    bucketScan bucket sample (xs ++ ys) =
      bucketScan bucket sample xs ++ bucketScan bucket sample ys := by
  induction xs with
  | nil => rfl
  | cons m rest ih =>
    simp only [List.cons_append, bucketScan]
    rw [show rest.append ys = rest ++ ys from rfl, ih, List.append_assoc]

theorem bucketScan_drop_first (bucket sample : List String) :
    ∀ n k, sample.length - k = n →
      (∀ j < k, getS sample j ∉ bucket) →
      (∃ j, k ≤ j ∧ j < sample.length ∧ getS sample j ∈ bucket) →
      ∃ i t, bucketScan bucket sample (sample.drop k) = i :: t ∧
        i < sample.length ∧ getS sample i ∈ bucket ∧
        ∀ j < i, getS sample j ∉ bucket := by
  intro n
  induction n with
  | zero =>
    intro k hk _ hex
    obtain ⟨j, hkj, hj, _⟩ := hex
    omega
  | succ n ih =>
    intro k hk hbefore hex
    have hklt : k < sample.length := by
      obtain ⟨j, hkj, hj, _⟩ := hex
      omega
    have hdrop : sample.drop k = getS sample k :: sample.drop (k+1) := by
      rw [getS_eq_getElem sample k hklt]
      exact List.drop_eq_getElem_cons hklt
    by_cases hmem : getS sample k ∈ bucket
    · have hcont : bucket.contains (getS sample k) = true := by simpa using hmem
      obtain ⟨i, t, hind, hi, hv, hfirst⟩ :=
        indicesOf_first (getS sample k) sample ⟨k, hklt, rfl⟩
      have hik : i = k := by
        rcases Nat.lt_trichotomy i k with hlt | heq | hgt
        · exact absurd (hv ▸ hmem) (hbefore i hlt)
        · exact heq
        · exact absurd rfl (hfirst k hgt)
      subst hik
      refine ⟨i, t ++ bucketScan bucket sample (sample.drop (i+1)), ?_, hi, hv ▸ hmem, hbefore⟩
      rw [hdrop]
      simp only [bucketScan, hind]
      rw [if_pos hcont]
      simp
    · have hcont : bucket.contains (getS sample k) = false := by simpa using hmem
      have hrec := ih (k+1) (by omega)
        (fun j hj => by
          rcases Nat.lt_or_ge j k with h | h
          · exact hbefore j h
          · have : j = k := by omega
            exact this ▸ hmem)
        (by
          obtain ⟨j, hkj, hj, hjb⟩ := hex
          refine ⟨j, ?_, hj, hjb⟩
          rcases Nat.eq_or_lt_of_le hkj with h | h
          · exact absurd (h ▸ hjb) hmem
          · omega)
      obtain ⟨i, t, hscan, hi, hv, hfirst⟩ := hrec
      refine ⟨i, t, ?_, hi, hv, hfirst⟩
      rw [hdrop]
      simp only [bucketScan]
      rw [if_neg (by simpa using hmem)]
      simpa using hscan

theorem bucketChoice_first (bucket sample : List String)
    (h : ∃ j, j < sample.length ∧ getS sample j ∈ bucket) :
    ∃ i t, bucketChoice bucket sample = i :: t ∧
      i < sample.length ∧ getS sample i ∈ bucket ∧
      ∀ j < i, getS sample j ∉ bucket := by
  have := bucketScan_drop_first bucket sample (sample.length) 0 (by omega)
    (by omega) (by obtain ⟨j, hj, hb⟩ := h; exact ⟨j, by omega, hj, hb⟩)
  simpa [bucketChoice] using this

theorem chosenIndices_eq_or (fs sample : List String) :
    chosenIndices fs sample = filterChoice fs sample ∨
    chosenIndices fs sample = bucketChoice truncations sample ∨
    chosenIndices fs sample = bucketChoice missenses sample ∨
    chosenIndices fs sample = bucketChoice noncodings sample := by
  unfold chosenIndices
  by_cases h1 : (filterChoice fs sample).isEmpty <;>
    by_cases h2 : (bucketChoice truncations sample).isEmpty <;>
      by_cases h3 : (bucketChoice missenses sample).isEmpty <;>
        simp [h1, h2, h3]

theorem chosenIndices_cases (fs sample : List String) (i : Nat) (t : List Nat)
    (h : chosenIndices fs sample = i :: t) :
    i ∈ filterChoice fs sample ∨ i ∈ bucketChoice truncations sample ∨
      i ∈ bucketChoice missenses sample ∨ i ∈ bucketChoice noncodings sample := by
  rcases chosenIndices_eq_or fs sample with he | he | he | he <;> rw [he] at h
  · exact Or.inl (h ▸ List.mem_cons_self i t)
  · exact Or.inr (Or.inl (h ▸ List.mem_cons_self i t))
  · exact Or.inr (Or.inr (Or.inl (h ▸ List.mem_cons_self i t)))
  · exact Or.inr (Or.inr (Or.inr (h ▸ List.mem_cons_self i t)))

/-! ### Claim theorems -/

/-- Claim C3: copy-number classification and injection use inclusive
thresholds: a value of exactly -0.2 or below classifies/injects Deletion, a
value of exactly 0.2 or above classifies/injects Amplification, and a value
strictly between the thresholds classifies No_Mutation with no injection. -/
theorem copy_number_thresholds_inclusive (v : ℚ) (ms ls : List String) :
    (v ≤ -0.2 →
      add_del_and_amp_no_somatic v = "Deletion" ∧
      add_del_and_amp v ms ls = (ms ++ ["Deletion"], ls ++ ["Deletion"])) ∧
    (0.2 ≤ v →
      add_del_and_amp_no_somatic v = "Amplification" ∧
      add_del_and_amp v ms ls = (ms ++ ["Amplification"], ls ++ ["Amplification"])) ∧
    (-0.2 < v → v < 0.2 →
      add_del_and_amp_no_somatic v = "No_Mutation" ∧
      add_del_and_amp v ms ls = (ms, ls)) := by
  refine ⟨fun h => ?_, fun h => ?_, fun h1 h2 => ?_⟩
  · constructor
    · unfold add_del_and_amp_no_somatic
      rw [if_pos h]
    · unfold add_del_and_amp
      rw [if_pos h]
  · have h' : ¬ v ≤ -0.2 := by linarith
    constructor
    · unfold add_del_and_amp_no_somatic
      rw [if_neg h', if_pos h]
    · unfold add_del_and_amp
      rw [if_neg h', if_pos h]
  · have h1' : ¬ v ≤ -0.2 := by linarith
    have h2' : ¬ v ≥ 0.2 := by linarith
    constructor
    · unfold add_del_and_amp_no_somatic
      rw [if_neg h1', if_neg h2']
    · unfold add_del_and_amp
      rw [if_neg h1', if_neg h2']

/-- Witness for C3: the boundary values -0.2 and 0.2 classify as Deletion and
Amplification, and 0.1999 classifies as No_Mutation. -/
theorem copy_number_thresholds_inclusive_witness :
    add_del_and_amp_no_somatic (-0.2) = "Deletion" ∧
    add_del_and_amp (0.2) ["X"] ["x"] = (["X", "Amplification"], ["x", "Amplification"]) ∧
    add_del_and_amp_no_somatic (0.1999) = "No_Mutation" :=
  ⟨((copy_number_thresholds_inclusive (-0.2) [] []).1 (by norm_num)).1,
   ((copy_number_thresholds_inclusive (0.2) ["X"] ["x"]).2.1 (by norm_num)).2,
   ((copy_number_thresholds_inclusive (0.1999) [] []).2.2 (by norm_num) (by norm_num)).1⟩

/-- Claim C10: the resolution step is partial.  On a sample whose candidate
list has two entries, both a label absent from the hardcoded priority list
and from all three fallback buckets, `sort` indexes the empty
`chosen_indices` list; the embedding models that IndexError as `none`, both
at the level of the per-row function and through the whole
`get_genotype_all_vars` pipeline. -/
theorem sort_partial_on_unknown_labels :
    2 ≤ (["Fusion", "Fusion"] : List String).length ∧
    ("Fusion" ∉ default_mutations_filter ∧ "Fusion" ∉ truncations ∧
     "Fusion" ∉ missenses ∧ "Fusion" ∉ noncodings) ∧
    sortRow default_mutations_filter ["Fusion", "Fusion"] ["p1", "p2"] = none ∧
    get_genotype_all_vars "G" ["G"] none true none []
      [JoinedRow.mk "S1" 0 ["Fusion", "Fusion"] ["p1", "p2"]] = none := by
  refine ⟨by decide, by decide, by decide, ?_⟩
  have hinj : add_del_and_amp 0 ["Fusion", "Fusion"] ["p1", "p2"]
      = (["Fusion", "Fusion"], ["p1", "p2"]) := by
    unfold add_del_and_amp
    rw [if_neg (by norm_num), if_neg (by norm_num)]
  have hsort : sortRow default_mutations_filter ["Fusion", "Fusion"] ["p1", "p2"] = none := by
    decide
  simp [get_genotype_all_vars, hotspotPass, injectPass, hinj, applySort, hsort]

/-- Counterexample for C2: two candidates tie at the winning label
Missense_Mutation, but `sort` keeps only the position `chosen_indices[0]`:
the output Mutation is the single value of the first tied position, not the
comma-join of both tied positions, and the Location is the first location,
not the comma-join. -/
theorem tie_break_no_comma_join_counterexample :
    sortRow default_mutations_filter ["Missense_Mutation", "Missense_Mutation"]
        ["p1", "p2"] = some (["Missense_Mutation"], ["p1"]) ∧
    String.intercalate "," ["Missense_Mutation"] = "Missense_Mutation" ∧
    ("Missense_Mutation" : String) ≠ "Missense_Mutation,Missense_Mutation" ∧
    String.intercalate "," ["p1"] = "p1" ∧
    ("p1" : String) ≠ "p1,p2" := by
  refine ⟨by decide, ?_, by decide, ?_, by decide⟩ <;> rfl

/-- Claim C2 (amended): for a sample whose candidate list has two or more
entries, the first label of the priority list that appears anywhere in the
candidate list determines the winner, and the output Mutation/Location pair
is the single candidate at the FIRST position bearing that label; tied later
positions are discarded rather than comma-joined. -/
theorem resolution_takes_first_position_of_winning_label
    (fs pre post ms ls : List String) (f : String)
    (hfs : fs = pre ++ f :: post)
    (hpre : ∀ g ∈ pre, g ∉ ms)
    (hf : f ∈ ms)
    (hlen : 2 ≤ ms.length) :
    ∃ i, i < ms.length ∧ getS ms i = f ∧ (∀ j < i, getS ms j ≠ f) ∧
      sortRow fs ms ls = some ([f], [getS ls i]) := by
  obtain ⟨j0, hj0, hv0⟩ := (mem_iff_getS f ms).mp hf
  obtain ⟨i, t, hind, hi, hvi, hfirst⟩ := indicesOf_first f ms ⟨j0, hj0, hv0⟩
  have hfc : filterChoice fs ms = i :: t := by
    rw [hfs, filterChoice_first pre f post ms hpre hf, hind]
  have hci : chosenIndices fs ms = i :: t := by
    unfold chosenIndices
    rw [hfc]
    simp
  have hne : (ms.length == 1) = false := by
    simp only [beq_eq_false_iff_ne, ne_eq]
    omega
  refine ⟨i, hi, hvi, hfirst, ?_⟩
  unfold sortRow
  rw [hne, hci]
  simp [hvi]

/-- Witness for C2 (amended): with the default priority list and candidates
[Silent, Missense_Mutation], Missense_Mutation is the first priority label
present, it sits at position 1, and the resolved pair is that single
candidate. -/
theorem resolution_takes_first_position_of_winning_label_witness :
    ∃ i, i < (["Silent", "Missense_Mutation"] : List String).length ∧
      getS ["Silent", "Missense_Mutation"] i = "Missense_Mutation" ∧
      (∀ j < i, getS ["Silent", "Missense_Mutation"] j ≠ "Missense_Mutation") ∧
      sortRow default_mutations_filter ["Silent", "Missense_Mutation"] ["s1", "m1"]
        = some (["Missense_Mutation"], [getS ["s1", "m1"] i]) :=
  resolution_takes_first_position_of_winning_label
    default_mutations_filter
    ["Deletion", "Frame_Shift_Del", "Frame_Shift_Ins", "Nonsense_Mutation",
     "Nonstop_Mutation", "Missense_Mutation_hotspot"]
    ["Amplification", "In_Frame_Del", "In_Frame_Ins", "Splice_Site",
     "De_Novo_Start_Out_Frame", "De_Novo_Start_In_Frame",
     "Start_Codon_Ins", "Start_Codon_SNP", "Silent", "Wildtype"]
    ["Silent", "Missense_Mutation"] ["s1", "m1"] "Missense_Mutation"
    (by decide) (by decide) (by decide) (by decide)

/-- Helper for C9: any index produced by the multi-candidate scan carries a
label drawn from the priority list or from one of the three fallback
buckets. -/
theorem chosenIndices_label (fs ms : List String) (i : Nat) (t : List Nat)
    (h : chosenIndices fs ms = i :: t) :
    i < ms.length ∧
      (getS ms i ∈ fs ∨ getS ms i ∈ truncations ∨ getS ms i ∈ missenses ∨
       getS ms i ∈ noncodings) := by
  rcases chosenIndices_cases fs ms i t h with hm | hm | hm | hm
  · obtain ⟨hi, hv⟩ := mem_filterChoice fs ms i hm
    exact ⟨hi, Or.inl hv⟩
  · obtain ⟨hi, hv⟩ := mem_bucketScan truncations ms ms i hm
    exact ⟨hi, Or.inr (Or.inl hv)⟩
  · obtain ⟨hi, hv⟩ := mem_bucketScan missenses ms ms i hm
    exact ⟨hi, Or.inr (Or.inr (Or.inl hv))⟩
  · obtain ⟨hi, hv⟩ := mem_bucketScan noncodings ms ms i hm
    exact ⟨hi, Or.inr (Or.inr (Or.inr hv))⟩

/-- Claim C9: when the candidate list holds a Wildtype sentinel together with
at least one non-sentinel candidate, a successful resolution never returns
the sentinel: the hardcoded priority list contains the label Wildtype but
neither Wildtype_Tumor nor Wildtype_Normal, and neither do the fallback
buckets, so every chosen index carries a non-sentinel label. -/
theorem sentinel_never_wins (ms ls : List String) (r : List String × List String)
    (hsent : "Wildtype_Tumor" ∈ ms ∨ "Wildtype_Normal" ∈ ms)
    (hreal : ∃ m ∈ ms, isSentinel m = false)
    (hsort : sortRow default_mutations_filter ms ls = some r) :
    ∀ m ∈ r.1, m ≠ "Wildtype_Tumor" ∧ m ≠ "Wildtype_Normal" := by
  obtain ⟨m0, hm0, hm0s⟩ := hreal
  have hlen : (ms.length == 1) = false := by
    simp only [beq_eq_false_iff_ne, ne_eq]
    intro h1
    obtain ⟨a, rfl⟩ : ∃ a, ms = [a] := by
      rcases ms with _ | ⟨a, _ | _⟩ <;> simp_all
    have hma : m0 = a := by simpa using hm0
    rcases hsent with hw | hw
    · have ha : a = "Wildtype_Tumor" := (List.mem_singleton.mp hw).symm
      simp [isSentinel, hma, ha] at hm0s
    · have ha : a = "Wildtype_Normal" := (List.mem_singleton.mp hw).symm
      simp [isSentinel, hma, ha] at hm0s
  unfold sortRow at hsort
  rw [hlen] at hsort
  simp only [Bool.false_eq_true, if_false] at hsort
  rcases hc : chosenIndices default_mutations_filter ms with _ | ⟨i, t⟩
  · rw [hc] at hsort
    exact absurd hsort (by simp)
  · rw [hc] at hsort
    obtain ⟨hi, hv⟩ := chosenIndices_label default_mutations_filter ms i t hc
    have hnot : getS ms i ≠ "Wildtype_Tumor" ∧ getS ms i ≠ "Wildtype_Normal" := by
      have hdf : ∀ x ∈ default_mutations_filter,
          x ≠ "Wildtype_Tumor" ∧ x ≠ "Wildtype_Normal" := by decide
      have htr : ∀ x ∈ truncations, x ≠ "Wildtype_Tumor" ∧ x ≠ "Wildtype_Normal" := by
        decide
      have hmi : ∀ x ∈ missenses, x ≠ "Wildtype_Tumor" ∧ x ≠ "Wildtype_Normal" := by
        decide
      have hnc : ∀ x ∈ noncodings, x ≠ "Wildtype_Tumor" ∧ x ≠ "Wildtype_Normal" := by
        decide
      rcases hv with h | h | h | h
      · exact hdf _ h
      · exact htr _ h
      · exact hmi _ h
      · exact hnc _ h
    have hr : r = ([getS ms i], [getS ls i]) := by
      simpa using hsort.symm
    rw [hr]
    intro m hm
    have : m = getS ms i := by simpa using hm
    exact this ▸ hnot

/-- Witness for C9: candidates [Wildtype_Tumor, Missense_Mutation] resolve to
Missense_Mutation, and the resolved label is not a sentinel. -/
theorem sentinel_never_wins_witness :
    sortRow default_mutations_filter ["Wildtype_Tumor", "Missense_Mutation"]
        ["w1", "m1"] = some (["Missense_Mutation"], ["m1"]) ∧
    (("Missense_Mutation" : String) ≠ "Wildtype_Tumor" ∧
     ("Missense_Mutation" : String) ≠ "Wildtype_Normal") :=
  ⟨by decide,
   sentinel_never_wins ["Wildtype_Tumor", "Missense_Mutation"] ["w1", "m1"]
     (["Missense_Mutation"], ["m1"])
     (Or.inl (by decide))
     ⟨"Missense_Mutation", by decide, by decide⟩
     (by decide)
     ("Missense_Mutation") (by decide)⟩

/-- Claim C6: when no candidate label appears in the priority list,
resolution falls back in order to the truncating bucket, then the
missense-class bucket, then the noncoding bucket, and within the first
non-empty bucket the candidate occurring first in original order wins. -/
theorem fallback_bucket_resolution (ms ls : List String)
    (hlen : 2 ≤ ms.length)
    (hnof : ∀ m ∈ ms, m ∉ default_mutations_filter) :
    ((∃ m ∈ ms, m ∈ truncations) →
      ∃ i, i < ms.length ∧ getS ms i ∈ truncations ∧
        (∀ j < i, getS ms j ∉ truncations) ∧
        sortRow default_mutations_filter ms ls = some ([getS ms i], [getS ls i])) ∧
    ((∀ m ∈ ms, m ∉ truncations) → (∃ m ∈ ms, m ∈ missenses) →
      ∃ i, i < ms.length ∧ getS ms i ∈ missenses ∧
        (∀ j < i, getS ms j ∉ missenses) ∧
        sortRow default_mutations_filter ms ls = some ([getS ms i], [getS ls i])) ∧
    ((∀ m ∈ ms, m ∉ truncations) → (∀ m ∈ ms, m ∉ missenses) →
      (∃ m ∈ ms, m ∈ noncodings) →
      ∃ i, i < ms.length ∧ getS ms i ∈ noncodings ∧
        (∀ j < i, getS ms j ∉ noncodings) ∧
        sortRow default_mutations_filter ms ls = some ([getS ms i], [getS ls i])) := by
  have hfc : filterChoice default_mutations_filter ms = [] :=
    filterChoice_eq_nil default_mutations_filter ms
      (fun f hf hmem => hnof f hmem hf)
  have hne : (ms.length == 1) = false := by
    simp only [beq_eq_false_iff_ne, ne_eq]
    omega
  refine ⟨fun hex => ?_, fun hno1 hex => ?_, fun hno1 hno2 hex => ?_⟩
  · obtain ⟨m, hm, hmb⟩ := hex
    obtain ⟨j0, hj0, hv0⟩ := (mem_iff_getS m ms).mp hm
    obtain ⟨i, t, heq, hi, hv, hfirst⟩ :=
      bucketChoice_first truncations ms ⟨j0, hj0, hv0 ▸ hmb⟩
    have hci : chosenIndices default_mutations_filter ms = i :: t := by
      unfold chosenIndices
      rw [hfc, heq]
      simp
    refine ⟨i, hi, hv, hfirst, ?_⟩
    unfold sortRow
    rw [hne, hci]
    simp
  · obtain ⟨m, hm, hmb⟩ := hex
    obtain ⟨j0, hj0, hv0⟩ := (mem_iff_getS m ms).mp hm
    obtain ⟨i, t, heq, hi, hv, hfirst⟩ :=
      bucketChoice_first missenses ms ⟨j0, hj0, hv0 ▸ hmb⟩
    have hb1 : bucketChoice truncations ms = [] := bucketChoice_eq_nil truncations ms hno1
    have hci : chosenIndices default_mutations_filter ms = i :: t := by
      unfold chosenIndices
      rw [hfc, hb1, heq]
      simp
    refine ⟨i, hi, hv, hfirst, ?_⟩
    unfold sortRow
    rw [hne, hci]
    simp
  · obtain ⟨m, hm, hmb⟩ := hex
    obtain ⟨j0, hj0, hv0⟩ := (mem_iff_getS m ms).mp hm
    obtain ⟨i, t, heq, hi, hv, hfirst⟩ :=
      bucketChoice_first noncodings ms ⟨j0, hj0, hv0 ▸ hmb⟩
    have hb1 : bucketChoice truncations ms = [] := bucketChoice_eq_nil truncations ms hno1
    have hb2 : bucketChoice missenses ms = [] := bucketChoice_eq_nil missenses ms hno2
    have hci : chosenIndices default_mutations_filter ms = i :: t := by
      unfold chosenIndices
      rw [hfc, hb1, hb2, heq]
      simp
    refine ⟨i, hi, hv, hfirst, ?_⟩
    unfold sortRow
    rw [hne, hci]
    simp

/-- Witness for C6: candidates [Intron, RNA] match nothing in the priority
list, nothing in the truncating or missense buckets, and fall through to the
noncoding bucket where Intron, first in original order, wins. -/
theorem fallback_bucket_resolution_witness :
    ∃ i, i < (["Intron", "RNA"] : List String).length ∧
      getS ["Intron", "RNA"] i ∈ noncodings ∧
      (∀ j < i, getS ["Intron", "RNA"] j ∉ noncodings) ∧
      sortRow default_mutations_filter ["Intron", "RNA"] ["i1", "r1"]
        = some ([getS ["Intron", "RNA"] i], [getS ["i1", "r1"] i]) :=
  (fallback_bucket_resolution ["Intron", "RNA"] ["i1", "r1"]
      (by decide) (by decide)).2.2
    (by decide) (by decide) ⟨"Intron", by decide, by decide⟩

/-- Counterexample for C5: with duplicate Location values the positional
pairing is NOT preserved.  For mutations [A, B] and locations [L, L] with L a
hotspot, position 1 should gain the suffix on its own mutation B, but
`row[...].index(location)` always returns the first occurrence, so position 1
emits the marked mutation of position 0 instead. -/
theorem hotspot_duplicate_location_counterexample :
    mark_hotspot_locations ["L"] ["A", "B"] ["L", "L"]
      = ["A_hotspot", "A_hotspot"] ∧
    getS (mark_hotspot_locations ["L"] ["A", "B"] ["L", "L"]) 1
      ≠ "B" ++ "_hotspot" := by
  refine ⟨by decide, by decide⟩

/-- Claim C5 (amended): when a hotspot set is supplied and the sample's
Location values are pairwise distinct, each position whose Location is in the
hotspot set has its paired Mutation suffixed and every other position is
unchanged, the Location list is untouched, and the positional correspondence
is preserved exactly.  With duplicate Location values every duplicate
position instead receives the mutation paired with the FIRST occurrence of
that Location value (see the counterexample). -/
theorem hotspot_marking_positional (hs ms ls : List String)
    (hnodup : ls.Nodup) :
    (mark_hotspot_locations hs ms ls).length = ls.length ∧
    ∀ i, i < ls.length →
      getS (mark_hotspot_locations hs ms ls) i =
        if getS ls i ∈ hs then getS ms i ++ "_hotspot" else getS ms i := by
  constructor
  · simp [mark_hotspot_locations]
  · intro i hi
    have hmark : getS (mark_hotspot_locations hs ms ls) i =
        (if hs.contains (getS ls i) then
          getS ms (List.indexOf (getS ls i) ls) ++ "_hotspot"
        else getS ms (List.indexOf (getS ls i) ls)) :=
      getS_map _ ls i hi
    have hidx : List.indexOf (getS ls i) ls = i := by
      rw [getS_eq_getElem ls i hi]
      exact List.indexOf_getElem hnodup i hi
    rw [hmark, hidx]
    by_cases hmem : getS ls i ∈ hs
    · rw [if_pos (by simpa using hmem), if_pos hmem]
    · rw [if_neg (by simpa using hmem), if_neg hmem]

/-- Witness for C5 (amended): distinct locations [L, M] with hotspot list
[L]: position 0 is suffixed, position 1 is untouched, and the output length
matches. -/
theorem hotspot_marking_positional_witness :
    (mark_hotspot_locations ["L"] ["A", "B"] ["L", "M"]).length =
      (["L", "M"] : List String).length ∧
    ∀ i, i < (["L", "M"] : List String).length →
      getS (mark_hotspot_locations ["L"] ["A", "B"] ["L", "M"]) i =
        if getS ["L", "M"] i ∈ ["L"] then getS ["A", "B"] i ++ "_hotspot"
        else getS ["A", "B"] i :=
  hotspot_marking_positional ["L"] ["A", "B"] ["L", "M"] (by decide)

/-- Claim C4: for every reachable candidate list (nonempty, and carrying at
most one Wildtype sentinel occurrence), `sample_status` agrees with the
spec's status derivation: Wildtype_Normal exactly on [Wildtype_Normal],
Wildtype_Tumor exactly on [Wildtype_Tumor], Single_mutation exactly when the
list has exactly one non-sentinel entry or exactly two entries one of which
is a sentinel, Multiple_mutation otherwise; the function reads only the
candidate list, never the resolution winner. -/
theorem mutation_status_matches_spec (ms : List String)
    (hne : ms ≠ [])
    (hsent : (ms.filter isSentinel).length ≤ 1) :
    sample_status ms = spec_mutation_status ms := by
  rcases ms with _ | ⟨a, _ | ⟨b, _ | ⟨c, t⟩⟩⟩
  · exact absurd rfl hne
  · by_cases h1 : a = "Wildtype_Normal"
    · simp [sample_status, spec_mutation_status, h1]
    · by_cases h2 : a = "Wildtype_Tumor"
      · simp [sample_status, spec_mutation_status, h1, h2]
      · simp [sample_status, spec_mutation_status, isSentinel, h1, h2]
  · by_cases h1 : a = "Wildtype_Tumor" <;> by_cases h2 : a = "Wildtype_Normal" <;>
      by_cases h3 : b = "Wildtype_Tumor" <;> by_cases h4 : b = "Wildtype_Normal" <;>
        simp_all [sample_status, spec_mutation_status, isSentinel] <;>
          rw [if_neg (by rintro (h | h) <;> simp_all),
              if_neg (by rintro (h | h) <;> simp_all)]
  · have htot := List.length_eq_length_filter_add (l := a :: b :: c :: t) isSentinel
    have hlen : 3 ≤ (a :: b :: c :: t).length := by simp
    have hmany : ¬ ((((a :: b :: c :: t).filter (fun m => !isSentinel m)).length = 1)
        ∨ ((a :: b :: c :: t).length = 2 ∧ (a :: b :: c :: t).any isSentinel)) := by
      rintro (h | ⟨h, _⟩)
      · omega
      · omega
    have hcode : sample_status (a :: b :: c :: t) = "Multiple_mutation" := by
      unfold sample_status
      rw [if_pos (by simp)]
      rw [if_neg (by simp), if_neg (by simp)]
    have hspec : spec_mutation_status (a :: b :: c :: t) = "Multiple_mutation" := by
      unfold spec_mutation_status
      rw [if_neg (by simp), if_neg (by simp), if_neg hmany]
    rw [hcode, hspec]

/-- Witness for C4: a single real call [Missense_Mutation] is nonempty,
carries no sentinel, and both the code and the spec rule classify it
Single_mutation. -/
theorem mutation_status_matches_spec_witness :
    sample_status ["Missense_Mutation"] = spec_mutation_status ["Missense_Mutation"] :=
  mutation_status_matches_spec ["Missense_Mutation"] (by decide) (by decide)

/-- Claim C8: a data-type getter forwarding to `_get_dataframe` with a source
name missing from the registry fails with a DataSourceNotFoundError whose
message names the requested source (and the dataset's cancer type), a
registered source returns the child dataset's table, and `get_CNV` is exactly
such a forwarding getter; the result is a plain `Except` value, with no
retry or fallback path. -/
theorem data_source_lookup (α : Type) (datasets : List (String × (String → String → α)))
    (ct name source tt : String) (imp : Bool) :
    (datasets.lookup source = none →
      pancan_get_dataframe α datasets ct name source tt imp =
        Except.error (CptacError.DataSourceNotFoundError
          ("Data source " ++ source ++ " not found for the " ++ ct ++ " dataset."))) ∧
    (∀ child, datasets.lookup source = some child →
      pancan_get_dataframe α datasets ct name source tt imp =
        Except.ok (child (if imp then name ++ "_imputed" else name) tt)) ∧
    get_CNV α datasets ct source tt imp =
      pancan_get_dataframe α datasets ct "CNV" source tt imp := by
  refine ⟨fun h => ?_, fun child h => ?_, rfl⟩
  · unfold pancan_get_dataframe
    rw [h]
  · unfold pancan_get_dataframe
    rw [h]

/-- Witness for C8: with a registry holding only washu, requesting bcm fails
with the source-not-found error naming bcm, and requesting washu returns the
registered table. -/
theorem data_source_lookup_witness :
    pancan_get_dataframe Nat [("washu", fun _ _ => 7)] "brca" "CNV" "bcm" "both" false =
      Except.error (CptacError.DataSourceNotFoundError
        ("Data source " ++ "bcm" ++ " not found for the " ++ "brca" ++ " dataset.")) ∧
    pancan_get_dataframe Nat [("washu", fun _ _ => 7)] "brca" "CNV" "washu" "both" false =
      Except.ok 7 :=
  ⟨(data_source_lookup Nat [("washu", fun _ _ => 7)] "brca" "CNV" "bcm" "both" false).1
      (by simp [List.lookup]),
   (data_source_lookup Nat [("washu", fun _ _ => 7)] "brca" "CNV" "washu" "both" false).2.1
      (fun _ _ => 7) (by simp [List.lookup])⟩

/-- Claim C1: refuted at a concrete input (code bug).  `get_genotype_all_vars`
unconditionally overwrites the caller-supplied `mutations_filter` with the
hardcoded default list, so a caller-supplied priority list [Silent] does not
make Silent win over Missense_Mutation, and two calls differing only in
`mutations_filter` always return identical tables. -/
theorem mutations_filter_ignored :
    ("Silent" ∈ (["Silent", "Missense_Mutation"] : List String)) ∧
    get_genotype_all_vars "TP53" ["TP53"] (some ["Silent"]) true none []
        [JoinedRow.mk "S1" 0 ["Silent", "Missense_Mutation"] ["s1", "m1"]] =
      some (["Mutation", "Location", "Mutation_Status"],
        [("S1", [Cell.str "Missense_Mutation", Cell.str "m1",
                 Cell.str "Multiple_mutation"])]) ∧
    ("Missense_Mutation" : String) ≠ "Silent" ∧
    (∀ (fil1 fil2 : Option (List String)) (gene : String) (sg : List String)
        (sl : Bool) (hs : Option (List String)) (cnv : List (String × ℚ))
        (joined : List JoinedRow),
      get_genotype_all_vars gene sg fil1 sl hs cnv joined =
        get_genotype_all_vars gene sg fil2 sl hs cnv joined) := by
  refine ⟨by decide, ?_, by decide, fun _ _ _ _ _ _ _ _ => rfl⟩
  have hinj : add_del_and_amp 0 ["Silent", "Missense_Mutation"] ["s1", "m1"]
      = (["Silent", "Missense_Mutation"], ["s1", "m1"]) := by
    unfold add_del_and_amp
    rw [if_neg (by norm_num), if_neg (by norm_num)]
  have hsort : sortRow default_mutations_filter ["Silent", "Missense_Mutation"]
      ["s1", "m1"] = some (["Missense_Mutation"], ["m1"]) := by decide
  have hstat : sample_status ["Silent", "Missense_Mutation"] = "Multiple_mutation" := by
    decide
  simp [get_genotype_all_vars, hotspotPass, injectPass, hinj, applySort, hsort, hstat]
  all_goals decide

/-- Helper for C7: a successful row-wise sort returns exactly one output row
per input row, in order, pairing each input row with its sorted result. -/
theorem applySort_fst (fs : List String) (rows : List JoinedRow)
    (out : List (JoinedRow × List String × List String))
    (h : applySort fs rows = some out) :
    out.map Prod.fst = rows := by
  induction rows generalizing out with
  | nil =>
    simp only [applySort] at h
    simp [← Option.some_inj.mp h]
  | cons r rest ih =>
    simp only [applySort] at h
    rcases hs : sortRow fs r.mutations r.locations with _ | w
    · rw [hs] at h
      exact absurd h (by simp)
    · rw [hs] at h
      rcases ha : applySort fs rest with _ | ws
      · rw [ha] at h
        exact absurd h (by simp)
      · rw [ha] at h
        have : (r, w) :: ws = out := Option.some_inj.mp h
        rw [← this]
        simp [ih ws ha]

/-- Counterexample for C7: when the requested gene has no mutation-call
coverage, the returned table is NOT of the claimed shape: its columns are the
gene's CNV column plus Mutation only — no Mutation_Status column, and no
Location column even though show_location is true. -/
theorem cnv_only_path_shape_counterexample :
    get_genotype_all_vars "EGFR" [] none true none [("S1", 1)] [] =
      some (["EGFR", "Mutation"], [("S1", [Cell.num 1, Cell.str "Amplification"])]) ∧
    ("Mutation_Status" ∉ (["EGFR", "Mutation"] : List String)) ∧
    ("Location" ∉ (["EGFR", "Mutation"] : List String)) := by
  refine ⟨?_, by decide, by decide⟩
  have h1 : add_del_and_amp_no_somatic 1 = "Amplification" := by
    unfold add_del_and_amp_no_somatic
    rw [if_neg (by norm_num), if_pos (by norm_num)]
  simp [get_genotype_all_vars, h1]

/-- Claim C7 (amended): on the mutation-coverage path a successful call
returns one row per joined sample with columns Mutation, Mutation_Status and
— exactly when show_location is true — Location; but when the requested gene
has no mutation-call coverage the call instead returns the gene's CNV column
plus a Mutation column only, one row per CNV sample, with no Mutation_Status
and no Location regardless of show_location. -/
theorem genotype_table_shape (gene : String) (sg : List String)
    (mf : Option (List String)) (sl : Bool) (hs : Option (List String))
    (cnv : List (String × ℚ)) (joined : List JoinedRow) :
    (gene ∉ sg →
      get_genotype_all_vars gene sg mf sl hs cnv joined =
        some ([gene, "Mutation"],
          cnv.map (fun p =>
            (p.1, [Cell.num p.2, Cell.str (add_del_and_amp_no_somatic p.2)])))) ∧
    (gene ∈ sg → ∀ cols rows,
      get_genotype_all_vars gene sg mf sl hs cnv joined = some (cols, rows) →
      cols = (if sl then ["Mutation", "Location", "Mutation_Status"]
              else ["Mutation", "Mutation_Status"]) ∧
      rows.map Prod.fst = joined.map JoinedRow.sample ∧
      ∀ p ∈ rows, p.2.length = cols.length) := by
  constructor
  · intro hnot
    have hc : sg.contains gene = false := by simpa using hnot
    unfold get_genotype_all_vars
    rw [if_pos hc]
  · intro hmem cols rows h
    have hcont : sg.contains gene = true := by simpa using hmem
    unfold get_genotype_all_vars at h
    rw [if_neg (by rw [hcont]; simp)] at h
    rcases ha : applySort default_mutations_filter
        ((joined.map (hotspotPass hs)).map injectPass) with _ | out
    · simp only [ha] at h
      exact Option.noConfusion h
    · simp only [ha] at h
      have hcols : cols = (if sl then ["Mutation", "Location", "Mutation_Status"]
          else ["Mutation", "Mutation_Status"]) := by
        have := (Prod.mk.injEq _ _ _ _).mp (Option.some_inj.mp h)
        exact this.1.symm
      have hrows : rows = out.map (fun rw =>
          (rw.1.sample,
           if sl then
             [Cell.str (String.intercalate "," rw.2.1),
              Cell.str (String.intercalate "," rw.2.2),
              Cell.str (sample_status rw.1.mutations)]
           else
             [Cell.str (String.intercalate "," rw.2.1),
              Cell.str (sample_status rw.1.mutations)])) := by
        have := (Prod.mk.injEq _ _ _ _).mp (Option.some_inj.mp h)
        exact this.2.symm
      refine ⟨hcols, ?_, ?_⟩
      · have hout : out.map Prod.fst = (joined.map (hotspotPass hs)).map injectPass :=
          applySort_fst _ _ out ha
        have hsamples : ((joined.map (hotspotPass hs)).map injectPass).map
            JoinedRow.sample = joined.map JoinedRow.sample := by
          simp only [List.map_map]
          refine List.map_congr_left (fun r _ => ?_)
          rcases hs with _ | hsl <;> rfl
        rw [hrows]
        simp only [List.map_map]
        calc (out.map (fun rw => rw.1.sample)) = (out.map Prod.fst).map JoinedRow.sample := by
              simp [List.map_map]
          _ = joined.map JoinedRow.sample := by rw [hout, hsamples]
      · intro p hp
        rw [hrows] at hp
        obtain ⟨rw0, _, rfl⟩ := List.mem_map.mp hp
        rcases sl with _ | _ <;> simp [hcols]

/-- Witness for C7 (amended): a concrete mutation-coverage call with
show_location false returns columns [Mutation, Mutation_Status], one row for
the single joined sample, with matching cell counts. -/
theorem genotype_table_shape_witness :
    (["Mutation", "Mutation_Status"] : List String) =
      (if false then ["Mutation", "Location", "Mutation_Status"]
       else ["Mutation", "Mutation_Status"]) ∧
    ([("S1", [Cell.str "Missense_Mutation", Cell.str "Single_mutation"])].map
        Prod.fst) =
      [JoinedRow.mk "S1" 0 ["Missense_Mutation"] ["m1"]].map JoinedRow.sample ∧
    ∀ p ∈ [(("S1" : String),
            [Cell.str "Missense_Mutation", Cell.str "Single_mutation"])],
      p.2.length = (["Mutation", "Mutation_Status"] : List String).length := by
  have hinj : add_del_and_amp 0 ["Missense_Mutation"] ["m1"]
      = (["Missense_Mutation"], ["m1"]) := by
    unfold add_del_and_amp
    rw [if_neg (by norm_num), if_neg (by norm_num)]
  have heval : get_genotype_all_vars "TP53" ["TP53"] none false none []
      [JoinedRow.mk "S1" 0 ["Missense_Mutation"] ["m1"]] =
      some (["Mutation", "Mutation_Status"],
        [("S1", [Cell.str "Missense_Mutation", Cell.str "Single_mutation"])]) := by
    have hsort : sortRow default_mutations_filter ["Missense_Mutation"] ["m1"]
        = some (["Missense_Mutation"], ["m1"]) := by decide
    have hstat : sample_status ["Missense_Mutation"] = "Single_mutation" := by decide
    simp [get_genotype_all_vars, hotspotPass, injectPass, hinj, applySort, hsort, hstat]
    all_goals decide
  exact (genotype_table_shape "TP53" ["TP53"] none false none []
      [JoinedRow.mk "S1" 0 ["Missense_Mutation"] ["m1"]]).2
    (by decide) ["Mutation", "Mutation_Status"]
    [("S1", [Cell.str "Missense_Mutation", Cell.str "Single_mutation"])] heval

end Cptac
